import Mathlib

/-!
Verification model of `src/src-tauri/src/lib.rs` (apk-disguise-pro).

The Rust source is embedded shallowly: pure text processing becomes Lean
functions over `List Char` / `String`, and every external interaction of one
pipeline run (tool invocations, manifest read/write, file removals) is
described by a `PipelineEnv` record of outcomes consumed in program order.
Machine integers that only count occurrences (the `i32` prefix counts, only
ever incremented from 0 and compared against 2) are modelled as `Nat`;
an overflow would need more than 2^31 listing lines and does not matter for
any statement here.

Unicode character classes from Rust's standard library
(`char::is_whitespace`, `char::is_alphanumeric`, `char::to_lowercase`) are
modelled exactly on the ASCII and Latin-1 ranges, which cover every
character any statement in this file evaluates; outside that range the
models default to "not whitespace / not alphanumeric / identity".
-/

/-- Model of Rust `char::is_whitespace` on the ASCII / Latin-1 range
(space, tab, line feed, vertical tab, form feed, carriage return, NEL,
no-break space). -/
def rustIsWhitespace (c : Char) : Bool :=
  c = ' ' || c = '\t' || c = '\n' || c = '\r' ||
  c.toNat = 0x0B || c.toNat = 0x0C || c.toNat = 0x85 || c.toNat = 0xA0

/-- Model of Rust `str::to_lowercase` per character on the ASCII / Latin-1
range: `A`–`Z` and `À`–`Þ` (except `×`) map 32 code points up; every other
modelled character is already caseless or lowercase and maps to itself. -/
def rustCharToLower (c : Char) : Char :=
  if 'A' ≤ c && c ≤ 'Z' then Char.ofNat (c.toNat + 32)
  else if 0xC0 ≤ c.toNat && c.toNat ≤ 0xDE && c.toNat ≠ 0xD7 then
    Char.ofNat (c.toNat + 32)
  else c

/-- Model of Rust `char::is_alphanumeric` on the ASCII / Latin-1 range:
ASCII letters and digits, plus the Latin-1 letters `À`–`ÿ` without the two
operators `×` and `÷`. -/
def rustIsAlphanumeric (c : Char) : Bool :=
  c.isAlpha || c.isDigit ||
    (0xC0 ≤ c.toNat && c.toNat ≤ 0xFF && c.toNat ≠ 0xD7 && c.toNat ≠ 0xF7)

/-- Split a character list at every separator the predicate accepts, keeping
empty pieces: the semantics of Rust `str::split` (always at least one piece). -/
def splitOnP (p : Char → Bool) : List Char → List (List Char)
  | [] => [[]]
  | c :: rest =>
    if p c then [] :: splitOnP p rest
    else
      match splitOnP p rest with
      | [] => [[c]]
      | g :: gs => (c :: g) :: gs

/-- Rust `str::split('<sep>')`. -/
def splitOnChar (sep : Char) (cs : List Char) : List (List Char) :=
  splitOnP (fun c => c = sep) cs

/-- Rust `str::split_whitespace`: pieces separated by whitespace runs, with
no empty pieces. -/
def splitWs (cs : List Char) : List (List Char) :=
  (splitOnP rustIsWhitespace cs).filter (fun g => !g.isEmpty)

/-- Strip one trailing carriage return, as Rust `str::lines` does to a
segment that ended at a `\n`. -/
def dropTrailingCR (cs : List Char) : List Char :=
  match cs.getLast? with
  | some '\r' => cs.dropLast
  | _ => cs

/-- The segments produced by splitting at `\n`, turned into Rust `lines`:
every `\n`-terminated segment loses one trailing `\r`, and a final empty
segment (text ending in `\n`, or empty text) yields no line. -/
def rustLinesAux : List (List Char) → List (List Char)
  | [] => []
  | [last] => if last.isEmpty then [] else [last]
  | seg :: rest => dropTrailingCR seg :: rustLinesAux rest

/-- Model of Rust `str::lines`. -/
def rustLines (s : String) : List String :=
  (rustLinesAux (splitOnChar '\n' s.data)).map String.mk

/-- Model of Rust `str::trim` (whitespace stripped from both ends). -/
def rustTrim (cs : List Char) : List Char :=
  ((cs.dropWhile rustIsWhitespace).reverse.dropWhile rustIsWhitespace).reverse

/-- Model of Rust `str::contains(pattern)`: some contiguous run of `cs`
equals `pat`. -/
def hasInfix (pat : List Char) : List Char → Bool
  | [] => pat.isEmpty
  | c :: rest => pat.isPrefixOf (c :: rest) || hasInfix pat rest

/-! ## Suffix derivation (`process_apk_full`, lib.rs lines 222–229)

```rust
let suffix = match &custom_suffix {
    Some(s) if !s.is_empty() => s.clone(),
    _ => {
        let clean: String = file_stem.to_lowercase().chars()
            .filter(|c| c.is_alphanumeric()).collect();
        if clean.len() > 12 { clean[..12].to_string() } else { clean }
    }
};
let new_package = format!("{}.{}", new_prefix, suffix);
```

`clean.len()` is the UTF-8 **byte** length and `clean[..12]` is a byte
slice: it panics when byte offset 12 is not a character boundary.
`byteTake` returns `none` exactly on that panic. -/

/-- The lowercased, alphanumeric-filtered characters of the file stem. -/
def cleanStem (stem : String) : List Char :=
  (stem.data.map rustCharToLower).filter rustIsAlphanumeric

/-- UTF-8 byte length of a character list (Rust `str::len`). -/
def utf8Len (cs : List Char) : Nat :=
  (cs.map Char.utf8Size).sum

/-- The characters of the byte slice `[..n]`: `none` when `n` bytes do not
end exactly at a character boundary (a Rust byte-slice panic). -/
def byteTake : Nat → List Char → Option (List Char)
  | 0, _ => some []
  | _ + 1, [] => none
  | n + 1, c :: cs =>
    if c.utf8Size ≤ n + 1 then
      (byteTake (n + 1 - c.utf8Size) cs).map (fun pre => c :: pre)
    else none

/-- The automatically derived suffix: lowercase, keep alphanumeric
characters, and when the byte length exceeds 12 take the byte slice
`[..12]`. `none` models the byte-slice panic. -/
def deriveSuffix (stem : String) : Option String :=
  if 12 < utf8Len (cleanStem stem) then (byteTake 12 (cleanStem stem)).map String.mk
  else some (String.mk (cleanStem stem))

/-- The suffix selection of lib.rs lines 222–228: a supplied non-empty
custom suffix wins, anything else derives from the file stem. -/
def chooseSuffix (customSuffix : Option String) (stem : String) : Option String :=
  match customSuffix with
  | some s => if !s.data.isEmpty then some s else deriveSuffix stem
  | none => deriveSuffix stem

/-- Modelled from the spec's words, for comparison with `deriveSuffix`:
"derived from the source file's base name by lowercasing, stripping all
non-alphanumeric characters, and truncating to at most 12 **characters**". -/
def specDeriveSuffix (stem : String) : String :=
  String.mk ((cleanStem stem).take 12)

/-! ## Device listing (`get_devices`, lib.rs lines 41–59)

```rust
let devices: Vec<String> = stdout.lines().skip(1)
    .filter(|line| !line.trim().is_empty() && line.contains("device"))
    .map(|line| {
        let parts: Vec<&str> = line.split_whitespace().collect();
        if !parts.is_empty() { parts[0].to_string() } else { line.to_string() }
    }).collect();
```
The function is modelled from the captured stdout onward; a launch failure
of the listing command propagates before this text processing starts. -/

/-- The filter of lib.rs line 51. -/
def keepLine (l : String) : Bool :=
  !(rustTrim l.data).isEmpty && hasInfix "device".data l.data

/-- The map of lib.rs lines 52–55: first whitespace token, or the whole
line when it has none. -/
def firstWord (l : String) : String :=
  match splitWs l.data with
  | [] => l
  | w :: _ => String.mk w

/-- `get_devices`, given the listing command's decoded stdout. -/
def get_devices (stdout : String) : List String :=
  (((rustLines stdout).drop 1).filter keepLine).map firstWord

/-! ## Trusted-prefix scan (`scan_trusted_prefixes`, lib.rs lines 63–94)

The `HashMap<String, i32>` tally is modelled as an association list in
first-insertion order; its iteration order in Rust is unspecified, and every
statement proved about the scan (membership, counts, the positions of the
curated entries, descending sortedness) is independent of that order.
`Vec::sort_by` is a stable sort and a stable sort's output is unique, so it
is modelled by a stable insertion sort. -/

/-- `TrustedPrefix` (lib.rs lines 6–11). The Rust field `prefix` is named
`pfx` here because `prefix` is a Lean keyword; `count` is the `i32`
occurrence tally, modelled as `Nat` (see the file comment). -/
structure TrustedPrefix where
  pfx : String
  count : Nat
  source : String
deriving DecidableEq, Repr

/-- Rust `str::strip_prefix`. -/
def stripPrefixOpt (pre s : String) : Option String :=
  if pre.data.isPrefixOf s.data then some (String.mk (s.data.drop pre.data.length))
  else none

/-- Rust `str::starts_with`. -/
def strStartsWith (s pre : String) : Bool :=
  pre.data.isPrefixOf s.data

/-- The two-segment prefix of a package name: segments 0 and 1 of
`pkg.split('.')` joined by a dot, provided there are at least two
(lib.rs lines 74–76). -/
def twoSegPrefix? (pkg : String) : Option String :=
  match splitOnChar '.' pkg.data with
  | a :: b :: _ => some (String.mk (a ++ '.' :: b))
  | _ => none

/-- The two-segment prefixes contributed by each `package:`-tagged line of
the listing output, in line order (lib.rs lines 72–80). -/
def scannedPrefixes (stdout : String) : List String :=
  (rustLines stdout).filterMap
    (fun l => (stripPrefixOpt "package:" l).bind twoSegPrefix?)

/-- `*prefix_map.entry(prefix).or_insert(0) += 1` on the association-list
model of the tally map. -/
def bump : List (String × Nat) → String → List (String × Nat)
  | [], k => [(k, 1)]
  | (k', v) :: rest, k =>
    if k' = k then (k', v + 1) :: rest else (k', v) :: bump rest k

/-- The tally map after all lines are processed. -/
def prefixMap (stdout : String) : List (String × Nat) :=
  (scannedPrefixes stdout).foldl bump []

/-- The denylist of lib.rs line 82. -/
def system_prefixes : List String :=
  ["com.android", "com.google", "android.hardware", "vendor.mediatek"]

/-- The filter of lib.rs line 85: kept when the count is at least 2 and no
denylist entry is a prefix of it. -/
def keepEntry (pc : String × Nat) : Bool :=
  decide (2 ≤ pc.2) && !(system_prefixes.any (fun sys => strStartsWith pc.1 sys))

/-- The `device_scan` entries before sorting (lib.rs lines 83–87). -/
def scanDerivedEntries (stdout : String) : List TrustedPrefix :=
  ((prefixMap stdout).filter keepEntry).map
    (fun pc => ⟨pc.1, pc.2, "device_scan"⟩)

/-- Stable insertion for the descending-by-count order of
`trusted.sort_by(|a, b| b.count.cmp(&a.count))` (lib.rs line 89). -/
def insertDesc (t : TrustedPrefix) : List TrustedPrefix → List TrustedPrefix
  | [] => [t]
  | u :: us => if u.count ≤ t.count then t :: u :: us else u :: insertDesc t us

/-- Stable sort by descending count (unique as the stable sort's output). -/
def sortDesc : List TrustedPrefix → List TrustedPrefix
  | [] => []
  | t :: ts => insertDesc t (sortDesc ts)

/-- The first curated entry inserted at position 0 (lib.rs line 90). -/
def recommended1 : TrustedPrefix :=
  ⟨"cn.chinapost", 999, "recommended"⟩

/-- The second curated entry inserted at position 1 (lib.rs line 91). -/
def recommended2 : TrustedPrefix :=
  ⟨"com.nlscan", 100, "recommended"⟩

/-- `scan_trusted_prefixes`, given the package-listing command's decoded
stdout: sort the scan-derived entries by descending count, then insert the
two curated entries at positions 0 and 1. -/
def scan_trusted_prefixes (stdout : String) : List TrustedPrefix :=
  recommended1 :: recommended2 :: sortDesc (scanDerivedEntries stdout)

/-! ## Path derivation (`process_apk_full`, lib.rs lines 189–195)

`std::path::Path` is modelled for Unix-style path strings: components are
the non-empty, non-`"."` slash-separated segments. This covers plain
relative and absolute paths; every path any statement here evaluates is of
that form. -/

/-- The normal components of a path string. -/
def pathComponents (p : String) : List (List Char) :=
  (splitOnChar '/' p.data).filter (fun c => !c.isEmpty && c ≠ ['.'])

/-- Model of `Path::file_name`: the last normal component, unless it is
`..`. -/
def rustFileName (p : String) : Option (List Char) :=
  match (pathComponents p).getLast? with
  | some c => if c = ['.', '.'] then none else some c
  | none => none

/-- The stem of a file name: everything before the last `.` that is not the
leading character, the whole name otherwise (Rust `Path::file_stem`). -/
def stemChars (cs : List Char) : List Char :=
  match ((List.range cs.length).filter
      (fun i => decide (0 < i) && decide (cs.getD i ' ' = '.'))).getLast? with
  | some i => cs.take i
  | none => cs

/-- `path.file_stem().and_then(|s| s.to_str()).unwrap_or("apk")`
(lib.rs line 190); `to_str` is total on the modelled strings. -/
def fileStem (p : String) : String :=
  match rustFileName p with
  | some name => String.mk (stemChars name)
  | none => "apk"

/-- Glue components back into a path body. -/
def joinComponents : List (List Char) → List Char
  | [] => []
  | [c] => c
  | c :: rest => c ++ '/' :: joinComponents rest

/-- `path.parent().unwrap_or(Path::new("."))` (lib.rs line 191): the path
with its last component removed; `"."` when there is no parent (root or
empty path). -/
def parentDir (p : String) : String :=
  match pathComponents p with
  | [] => "."
  | comps =>
    match comps.dropLast with
    | [] => if p.data.head? = some '/' then "/" else ""
    | ds =>
      if p.data.head? = some '/' then String.mk ('/' :: joinComponents ds)
      else String.mk (joinComponents ds)

/-- Model of `Path::join` with a relative file name. -/
def rustJoin (dir name : String) : String :=
  if dir.data.isEmpty then name
  else if dir.data.getLast? = some '/' then String.mk (dir.data ++ name.data)
  else String.mk (dir.data ++ '/' :: name.data)

/-- `std::env::temp_dir().join(format!("apk_disguise_{}", file_stem))`
(lib.rs line 192), with the temp directory a parameter. -/
def workDir (tempDir apkPath : String) : String :=
  rustJoin tempDir ("apk_disguise_" ++ fileStem apkPath)

/-- `parent_dir.join(format!("{}_rebuilt.apk", file_stem))` (lib.rs 193). -/
def rebuiltApk (apkPath : String) : String :=
  rustJoin (parentDir apkPath) (fileStem apkPath ++ "_rebuilt.apk")

/-- `parent_dir.join(format!("{}_aligned.apk", file_stem))` (lib.rs 194). -/
def alignedApk (apkPath : String) : String :=
  rustJoin (parentDir apkPath) (fileStem apkPath ++ "_aligned.apk")

/-- `parent_dir.join(format!("{}_fixed.apk", file_stem))` (lib.rs 195). -/
def finalApk (apkPath : String) : String :=
  rustJoin (parentDir apkPath) (fileStem apkPath ++ "_fixed.apk")

/-! ## Manifest patching (`process_apk_full`, lib.rs lines 231–238)

The regex `package="[^"]+"` is applied by `Regex::replace`, which rewrites
the first match only: the first occurrence of `package=\x22`, one or more
non-quote characters, and a closing quote. -/

/-- One or more non-quote characters followed by `"`: the characters the
match consumes after `package=\x22`, or `none` when the rest does not
match. -/
def matchAttrValue : List Char → Option (List Char)
  | [] => none
  | c :: rest =>
    if c = '"' then none
    else
      match rest with
      | [] => none
      | r :: rs =>
        if r = '"' then some rs
        else matchAttrValue (r :: rs)

/-- Replace the first `package="[^"]+"` with `package="<newPackage>"`;
unchanged when there is no match. -/
def replacePackageAttr (newPackage : String) : List Char → List Char
  | [] => []
  | c :: rest =>
    if ("package=\"".data).isPrefixOf (c :: rest) then
      match matchAttrValue ((c :: rest).drop 9) with
      | some after =>
        "package=\"".data ++ newPackage.data ++ '"' :: after
      | none => c :: replacePackageAttr newPackage rest
    else c :: replacePackageAttr newPackage rest

/-- Index of the first occurrence of `pat` in `cs`. -/
def firstIndexOf (pat : List Char) : List Char → Option Nat
  | [] => if pat.isEmpty then some 0 else none
  | c :: rest =>
    if pat.isPrefixOf (c :: rest) then some 0
    else (firstIndexOf pat rest).map (· + 1)

/-- The `<uses-sdk>` insertion of lib.rs lines 234–238: when no `<uses-sdk`
occurs, insert the fixed declaration right before the first
`<application`. -/
def insertUsesSdk (cs : List Char) : List Char :=
  if hasInfix "<uses-sdk".data cs then cs
  else
    match firstIndexOf "<application".data cs with
    | some pos =>
      cs.take pos ++
        ("    <uses-sdk android:minSdkVersion=\"19\" android:targetSdkVersion=\"27\"/>\n    ").data ++
        cs.drop pos
    | none => cs

/-- The patched manifest text written back at lib.rs line 240. -/
def patchManifest (content newPackage : String) : String :=
  String.mk (insertUsesSdk (replacePackageAttr newPackage content.data))

/-! ## The pipeline (`process_apk_full`, lib.rs lines 177–349)

One run's external interactions are described by a `PipelineEnv`: the
captured outcome of each tool invocation (each is launched at most once per
run) and of the manifest read/write, plus the success of each attempted
file removal. The tool-path arguments of the Rust function only select
which binaries those invocations run and are absorbed into the
environment. The function returns the run's outcome together with the
ordered trace of file-removal attempts. -/

/-- What `Command::output()` yields once the process launched: exit-status
success and decoded stdout/stderr (lossy UTF-8 decoding never fails). -/
structure ToolOutput where
  statusSuccess : Bool
  stdout : String
  stderr : String
deriving DecidableEq, Repr

/-- `ProcessResult` (lib.rs lines 13–19). -/
structure ProcessResult where
  success : Bool
  message : String
  output_path : Option String
  step : Option String
deriving DecidableEq, Repr

/-- A file-system removal the pipeline attempts. -/
inductive FsOp where
  | removeFile (path : String)
  | removeDirAll (path : String)
deriving DecidableEq, Repr

/-- How one run of `process_apk_full` ends: a Rust panic, a propagated
`Err` (tier-1 launch/IO failure), or an `Ok(ProcessResult)`. -/
inductive RunOutcome where
  | panicked
  | err (e : String)
  | ok (r : ProcessResult)
deriving DecidableEq, Repr

/-- The outcomes of one run's external interactions, in program order.
`Except.error e` on a command is the launch failure mapped at the
corresponding `map_err`; `fsRemove` tells whether an attempted removal
succeeds — the Rust code discards that `Result` (`let _ = ...`), so the
field is bound and dropped exactly where the source drops it. -/
structure PipelineEnv where
  decompile : Except String ToolOutput
  readManifest : Except String String
  writeManifest : Except String Unit
  rebuild : Except String ToolOutput
  align : Except String ToolOutput
  sign : Except String ToolOutput
  install : Except String ToolOutput
  fsRemove : FsOp → Bool

/-- `process_apk_full` (lib.rs lines 177–349). Returns the run outcome and
the ordered trace of attempted removals. The Rust parameter `new_prefix` is
named `new_pfx` here. -/
def process_apk_full (apk_path new_pfx : String)
    (custom_suffix device_id : Option String) (install_after : Bool)
    (temp_dir : String) (env : PipelineEnv) : RunOutcome × List FsOp :=
  let work_dir := workDir temp_dir apk_path
  let rebuilt_apk := rebuiltApk apk_path
  let aligned_apk := alignedApk apk_path
  let final_apk := finalApk apk_path
  let _rm0 := env.fsRemove (FsOp.removeDirAll work_dir)
  let ops0 := [FsOp.removeDirAll work_dir]
  match env.decompile with
  | Except.error e => (RunOutcome.err ("反编译命令执行失败: " ++ e), ops0)
  | Except.ok dec =>
  if dec.statusSuccess = false then
    (RunOutcome.ok ⟨false, "反编译失败: " ++ dec.stderr ++ " " ++ dec.stdout,
      none, some "decompile"⟩, ops0)
  else
  match env.readManifest with
  | Except.error e => (RunOutcome.err ("读取 Manifest 失败: " ++ e), ops0)
  | Except.ok manifest_content =>
  match chooseSuffix custom_suffix (fileStem apk_path) with
  | none => (RunOutcome.panicked, ops0)
  | some suffix =>
  let new_package := new_pfx ++ "." ++ suffix
  let _new_manifest := patchManifest manifest_content new_package
  match env.writeManifest with
  | Except.error e => (RunOutcome.err ("写入 Manifest 失败: " ++ e), ops0)
  | Except.ok _ =>
  match env.rebuild with
  | Except.error e => (RunOutcome.err ("回编译命令执行失败: " ++ e), ops0)
  | Except.ok rb =>
  if rb.statusSuccess = false then
    (RunOutcome.ok ⟨false, "回编译失败: " ++ rb.stderr ++ " " ++ rb.stdout,
      none, some "rebuild"⟩, ops0)
  else
  match env.align with
  | Except.error e => (RunOutcome.err ("对齐命令执行失败: " ++ e), ops0)
  | Except.ok al =>
  if al.statusSuccess = false then
    (RunOutcome.ok ⟨false, "对齐失败: " ++ al.stderr,
      some rebuilt_apk, some "zipalign"⟩, ops0)
  else
  match env.sign with
  | Except.error e => (RunOutcome.err ("签名命令执行失败: " ++ e), ops0)
  | Except.ok sg =>
  if sg.statusSuccess = false then
    (RunOutcome.ok ⟨false, "签名失败: " ++ sg.stderr,
      some aligned_apk, some "sign"⟩, ops0)
  else
  let _rm1 := env.fsRemove (FsOp.removeFile rebuilt_apk)
  let _rm2 := env.fsRemove (FsOp.removeFile aligned_apk)
  let _rm3 := env.fsRemove (FsOp.removeDirAll work_dir)
  let ops1 := ops0 ++ [FsOp.removeFile rebuilt_apk, FsOp.removeFile aligned_apk,
    FsOp.removeDirAll work_dir]
  let complete : RunOutcome × List FsOp :=
    (RunOutcome.ok ⟨true, "✅ 处理完成! 新包名: " ++ new_package,
      some final_apk, some "complete"⟩, ops1)
  if install_after then
    match device_id with
    | some _device =>
      match env.install with
      | Except.ok out =>
        if out.statusSuccess && hasInfix "Success".data out.stdout.data then
          (RunOutcome.ok ⟨true, "✅ 安装成功! 新包名: " ++ new_package,
            some final_apk, some "install"⟩, ops1)
        else
          (RunOutcome.ok ⟨false, "安装失败: " ++ out.stdout,
            some final_apk, some "install"⟩, ops1)
      | Except.error e =>
        (RunOutcome.ok ⟨false, "安装命令执行失败: " ++ e,
          some final_apk, some "install"⟩, ops1)
    | none => complete
  else complete

/-! ## Auxiliary definitions used by the statements and proofs -/

/-- Lookup in the association-list model of the tally map. -/
def lookupK (k : String) : List (String × Nat) → Option Nat
  | [] => none
  | (k', v) :: rest => if k' = k then some v else lookupK k rest

/-- Occurrence count of a string in a list. -/
def countK (k : String) : List String → Nat
  | [] => 0
  | x :: xs => (if x = k then 1 else 0) + countK k xs

/-- Adding `n` further occurrences to an optional tally entry. -/
def addCnt : Option Nat → Nat → Option Nat
  | some v, n => some (v + n)
  | none, n => if n = 0 then none else some n

/-! ## String-append and path helper lemmas -/

theorem strAppend_assoc (a b c : String) : a ++ b ++ c = a ++ (b ++ c) := by
  apply String.ext; simp

theorem strAppend_empty (a : String) : a ++ "" = a := by
  apply String.ext; simp

theorem strAppend_left_cancel {s a b : String} (h : s ++ a = s ++ b) : a = b := by
  have h2 : s.data ++ a.data = s.data ++ b.data := by
    have := congrArg String.data h; simpa using this
  exact String.ext (List.append_cancel_left h2)

theorem rustJoin_right_inj {d a b : String} (h : rustJoin d a = rustJoin d b) :
    a = b := by
  by_cases h1 : d.data.isEmpty
  · simpa [rustJoin, h1] using h
  · by_cases h2 : d.data.getLast? = some '/'
    · simp [rustJoin, h1, h2] at h
      have h3 : d.data ++ a.data = d.data ++ b.data := congrArg String.data h
      exact String.ext (List.append_cancel_left h3)
    · simp [rustJoin, h1, h2] at h
      have h3 : d.data ++ '/' :: a.data = d.data ++ '/' :: b.data :=
        congrArg String.data h
      have h4 := List.append_cancel_left h3
      exact String.ext (by injection h4)

theorem finalApk_ne_rebuiltApk (apk : String) : finalApk apk ≠ rebuiltApk apk := by
  intro h
  have h2 := rustJoin_right_inj h
  have h3 := strAppend_left_cancel h2
  exact absurd h3 (by decide)

theorem finalApk_ne_alignedApk (apk : String) : finalApk apk ≠ alignedApk apk := by
  intro h
  have h2 := rustJoin_right_inj h
  have h3 := strAppend_left_cancel h2
  exact absurd h3 (by decide)

/-! ## Tally-map lemmas: the association-list fold computes occurrence counts -/

theorem mem_keys_bump {x k : String} {m : List (String × Nat)} :
    x ∈ (bump m k).map Prod.fst ↔ x ∈ m.map Prod.fst ∨ x = k := by
  induction m with
  | nil => simp [bump]
  | cons kv rest ih =>
    obtain ⟨k', v⟩ := kv
    by_cases h : k' = k
    · subst h
      simp [bump]
      tauto
    · simp only [bump, if_neg h, List.map_cons, List.mem_cons]
      rw [ih]
      tauto

theorem nodup_keys_bump {m : List (String × Nat)} {k : String}
    (h : (m.map Prod.fst).Nodup) : ((bump m k).map Prod.fst).Nodup := by
  induction m with
  | nil => simp [bump]
  | cons kv rest ih =>
    obtain ⟨k', v⟩ := kv
    rw [List.map_cons, List.nodup_cons] at h
    by_cases h1 : k' = k
    · subst h1
      simpa [bump] using h
    · rw [bump, if_neg h1, List.map_cons, List.nodup_cons]
      refine ⟨?_, ih h.2⟩
      intro hmem
      rcases mem_keys_bump.mp hmem with h2 | h2
      · exact h.1 h2
      · exact h1 h2

theorem mem_of_lookupK_eq_some {m : List (String × Nat)} {k : String} {v : Nat}
    (h : lookupK k m = some v) : (k, v) ∈ m := by
  induction m with
  | nil => simp [lookupK] at h
  | cons kv rest ih =>
    obtain ⟨k', v'⟩ := kv
    by_cases h1 : k' = k
    · subst h1
      rw [lookupK, if_pos rfl] at h
      injection h with h
      subst h
      exact List.mem_cons_self _ _
    · rw [lookupK, if_neg h1] at h
      exact List.mem_cons_of_mem _ (ih h)

theorem lookupK_eq_some_of_mem {m : List (String × Nat)}
    (hnd : (m.map Prod.fst).Nodup) {k : String} {v : Nat} (hm : (k, v) ∈ m) :
    lookupK k m = some v := by
  induction m with
  | nil => simp at hm
  | cons kv rest ih =>
    obtain ⟨k', v'⟩ := kv
    rw [List.map_cons, List.nodup_cons] at hnd
    rcases List.mem_cons.mp hm with h1 | h1
    · injection h1 with hk hv
      subst hk; subst hv
      rw [lookupK, if_pos rfl]
    · have hne : k' ≠ k := by
        intro he
        apply hnd.1
        have h2 := List.mem_map_of_mem Prod.fst h1
        simpa [he] using h2
      rw [lookupK, if_neg hne]
      exact ih hnd.2 h1

theorem lookupK_bump_self (k : String) (m : List (String × Nat)) :
    lookupK k (bump m k) = some ((lookupK k m).getD 0 + 1) := by
  induction m with
  | nil => simp [bump, lookupK]
  | cons kv rest ih =>
    obtain ⟨k', v⟩ := kv
    by_cases h : k' = k
    · subst h; simp [bump, lookupK]
    · simp [bump, lookupK, h, ih]

theorem lookupK_bump_ne {k a : String} (h : k ≠ a) (m : List (String × Nat)) :
    lookupK k (bump m a) = lookupK k m := by
  induction m with
  | nil =>
    simp only [bump, lookupK]
    rw [if_neg (fun hh => h hh.symm)]
  | cons kv rest ih =>
    obtain ⟨k', v⟩ := kv
    by_cases h1 : k' = a
    · subst h1
      have h2 : ¬ k' = k := fun hh => h (hh ▸ rfl)
      simp [bump, lookupK, h2]
    · by_cases h2 : k' = k
      · subst h2; simp [bump, lookupK, h1]
      · simp [bump, lookupK, h1, h2, ih]

theorem countK_cons_self (k : String) (t : List String) :
    countK k (k :: t) = 1 + countK k t := by
  simp [countK]

theorem countK_cons_ne {x k : String} (h : x ≠ k) (t : List String) :
    countK k (x :: t) = countK k t := by
  simp [countK, h]

theorem lookupK_foldl_bump (l : List String) :
    ∀ (m : List (String × Nat)) (k : String),
      lookupK k (l.foldl bump m) = addCnt (lookupK k m) (countK k l) := by
  induction l with
  | nil =>
    intro m k
    cases h : lookupK k m <;> simp [countK, addCnt, h]
  | cons a t ih =>
    intro m k
    rw [List.foldl_cons, ih]
    by_cases hak : a = k
    · subst hak
      rw [lookupK_bump_self, countK_cons_self]
      cases h : lookupK a m with
      | none =>
        simp only [addCnt, h, Option.getD_none]
        rw [if_neg (by omega : ¬ (1 + countK a t = 0))]
      | some v =>
        simp only [addCnt, h, Option.getD_some]
        congr 1
        omega
    · have hka : ¬ k = a := fun hh => hak hh.symm
      rw [lookupK_bump_ne hka, countK_cons_ne hak]

theorem lookupK_prefixMap (stdout p : String) :
    lookupK p (prefixMap stdout) =
      if countK p (scannedPrefixes stdout) = 0 then none
      else some (countK p (scannedPrefixes stdout)) := by
  rw [prefixMap, lookupK_foldl_bump]
  simp [lookupK, addCnt]

theorem nodup_keys_foldl (l : List String) :
    ∀ m : List (String × Nat), (m.map Prod.fst).Nodup →
      ((l.foldl bump m).map Prod.fst).Nodup := by
  induction l with
  | nil => intro m h; simpa using h
  | cons a t ih => intro m h; exact ih _ (nodup_keys_bump h)

theorem nodup_keys_prefixMap (stdout : String) :
    ((prefixMap stdout).map Prod.fst).Nodup :=
  nodup_keys_foldl _ [] (by simp)

/-! ## Sort lemmas for the stable descending sort -/

theorem mem_insertDesc {a t : TrustedPrefix} {l : List TrustedPrefix} :
    a ∈ insertDesc t l ↔ a = t ∨ a ∈ l := by
  induction l with
  | nil => simp [insertDesc]
  | cons u us ih =>
    by_cases h : u.count ≤ t.count
    · simp [insertDesc, h]
    · simp [insertDesc, h, ih]
      tauto

theorem mem_sortDesc {a : TrustedPrefix} {l : List TrustedPrefix} :
    a ∈ sortDesc l ↔ a ∈ l := by
  induction l with
  | nil => simp [sortDesc]
  | cons t ts ih =>
    rw [sortDesc, mem_insertDesc, ih, List.mem_cons]

theorem pairwise_insertDesc {t : TrustedPrefix} {l : List TrustedPrefix}
    (h : l.Pairwise (fun a b => b.count ≤ a.count)) :
    (insertDesc t l).Pairwise (fun a b => b.count ≤ a.count) := by
  induction l with
  | nil => simp [insertDesc]
  | cons u us ih =>
    rw [List.pairwise_cons] at h
    by_cases h1 : u.count ≤ t.count
    · rw [insertDesc, if_pos h1, List.pairwise_cons]
      refine ⟨?_, List.pairwise_cons.mpr h⟩
      intro b hb
      rcases List.mem_cons.mp hb with h2 | h2
      · exact h2 ▸ h1
      · exact Nat.le_trans (h.1 b h2) h1
    · rw [insertDesc, if_neg h1, List.pairwise_cons]
      refine ⟨?_, ih h.2⟩
      intro b hb
      rcases mem_insertDesc.mp hb with h2 | h2
      · subst h2; omega
      · exact h.1 b h2

theorem pairwise_sortDesc (l : List TrustedPrefix) :
    (sortDesc l).Pairwise (fun a b => b.count ≤ a.count) := by
  induction l with
  | nil => simp [sortDesc]
  | cons t ts ih => exact pairwise_insertDesc ih

/-! ## Whitespace-split and UTF-8 helper lemmas -/

theorem splitOnP_ne_nil (p : Char → Bool) (cs : List Char) : splitOnP p cs ≠ [] := by
  cases cs with
  | nil => simp [splitOnP]
  | cons c rest =>
    rw [splitOnP]
    by_cases h : p c
    · simp [h]
    · rw [if_neg h]
      cases hs : splitOnP p rest with
      | nil => simp
      | cons g gs => simp

theorem splitWs_ne_nil {cs : List Char} (h : ∃ c ∈ cs, rustIsWhitespace c = false) :
    splitWs cs ≠ [] := by
  induction cs with
  | nil => simp at h
  | cons c rest ih =>
    rw [splitWs, splitOnP]
    by_cases hc : rustIsWhitespace c
    · rw [if_pos hc]
      rw [List.filter_cons]
      have h2 : ∃ x ∈ rest, rustIsWhitespace x = false := by
        obtain ⟨x, hx, hxf⟩ := h
        rcases List.mem_cons.mp hx with h3 | h3
        · rw [h3] at hxf; rw [hc] at hxf; cases hxf
        · exact ⟨x, h3, hxf⟩
      have h4 := ih h2
      rw [splitWs] at h4
      simpa using h4
    · rw [if_neg hc]
      cases hs : splitOnP rustIsWhitespace rest with
      | nil => simp
      | cons g gs => simp

theorem rustTrim_nil_of_all_ws {cs : List Char}
    (h : ∀ c ∈ cs, rustIsWhitespace c = true) : rustTrim cs = [] := by
  have h1 : cs.dropWhile rustIsWhitespace = [] := List.dropWhile_eq_nil_iff.mpr h
  rw [rustTrim, h1]
  simp

theorem exists_nonws_of_keepLine {l : String} (hk : keepLine l = true) :
    ∃ c ∈ l.data, rustIsWhitespace c = false := by
  by_contra hall
  push_neg at hall
  have h1 : rustTrim l.data = [] := rustTrim_nil_of_all_ws (fun c hc => by
    have h2 := hall c hc
    simpa using h2)
  rw [keepLine, h1] at hk
  simp at hk

theorem utf8Len_of_all_one {cs : List Char} (h : ∀ c ∈ cs, c.utf8Size = 1) :
    utf8Len cs = cs.length := by
  induction cs with
  | nil => rfl
  | cons c rest ih =>
    rw [utf8Len, List.map_cons, List.sum_cons, h c (List.mem_cons_self _ _),
      List.length_cons]
    have h2 := ih (fun x hx => h x (List.mem_cons_of_mem _ hx))
    rw [utf8Len] at h2
    omega

theorem byteTake_of_all_one {cs : List Char} (h : ∀ c ∈ cs, c.utf8Size = 1) :
    ∀ n, n ≤ cs.length → byteTake n cs = some (cs.take n) := by
  induction cs with
  | nil =>
    intro n hn
    have h0 : n = 0 := by simpa using hn
    rw [h0]
    rfl
  | cons c rest ih =>
    intro n hn
    cases n with
    | zero => rfl
    | succ m =>
      have hc : c.utf8Size = 1 := h c (List.mem_cons_self _ _)
      rw [byteTake, if_pos (by omega), hc]
      have hm : m + 1 - 1 = m := by omega
      rw [hm, ih (fun x hx => h x (List.mem_cons_of_mem _ hx)) m (by
        rw [List.length_cons] at hn; omega)]
      rfl

/-! ## Claim theorems -/

/-- C1: when the decompile tool's invocation completes with non-success
exit status, `process_apk_full` returns (does not raise) a result with
`success = false`, `step = "decompile"`, `output_path = none` and a message
containing the tool's stdout and stderr; the run's value and trace are
fixed by the decompile outcome alone (no later stage runs, and no cleanup
beyond the initial working-directory clear is attempted). -/
theorem decompile_failure_short_circuits
    (apk_path new_pfx : String) (custom_suffix device_id : Option String)
    (install_after : Bool) (temp_dir : String) (env : PipelineEnv)
    (o : ToolOutput) (hdec : env.decompile = Except.ok o)
    (hfail : o.statusSuccess = false) :
    process_apk_full apk_path new_pfx custom_suffix device_id install_after
        temp_dir env =
      (RunOutcome.ok ⟨false, "反编译失败: " ++ o.stderr ++ " " ++ o.stdout,
        none, some "decompile"⟩,
       [FsOp.removeDirAll (workDir temp_dir apk_path)]) ∧
    (∃ x y, "反编译失败: " ++ o.stderr ++ " " ++ o.stdout = x ++ o.stdout ++ y) ∧
    (∃ x y, "反编译失败: " ++ o.stderr ++ " " ++ o.stdout = x ++ o.stderr ++ y) := by
  refine ⟨?_, ⟨"反编译失败: " ++ o.stderr ++ " ", "", ?_⟩,
    ⟨"反编译失败: ", " " ++ o.stdout, ?_⟩⟩
  · simp [process_apk_full, hdec, hfail]
  · rw [strAppend_empty]
  · rw [strAppend_assoc, strAppend_assoc]

/-- C1 witness: a concrete run whose decompile tool reports failure with
stdout `OUT` and stderr `ERR`. -/
theorem decompile_failure_short_circuits_witness :
    process_apk_full "/tmp/game.apk" "cn.chinapost" none none false "/t"
        ⟨Except.ok ⟨false, "OUT", "ERR"⟩, Except.ok "", Except.ok (),
         Except.ok ⟨true, "", ""⟩, Except.ok ⟨true, "", ""⟩,
         Except.ok ⟨true, "", ""⟩, Except.ok ⟨true, "", ""⟩, fun _ => true⟩ =
      (RunOutcome.ok ⟨false, "反编译失败: " ++ "ERR" ++ " " ++ "OUT",
        none, some "decompile"⟩,
       [FsOp.removeDirAll (workDir "/t" "/tmp/game.apk")]) ∧
    (∃ x y, "反编译失败: " ++ "ERR" ++ " " ++ "OUT" = x ++ "OUT" ++ y) ∧
    (∃ x y, "反编译失败: " ++ "ERR" ++ " " ++ "OUT" = x ++ "ERR" ++ y) :=
  decompile_failure_short_circuits "/tmp/game.apk" "cn.chinapost" none none
    false "/t" _ ⟨false, "OUT", "ERR"⟩ rfl rfl

/-- C2: once decompile, manifest patching and rebuild have succeeded, a
zipalign-tool failure yields `success = false`, `step = "zipalign"`,
`output_path = ` the rebuilt (pre-alignment) APK path, and a sign-tool
failure (after zipalign succeeded) yields `success = false`,
`step = "sign"`, `output_path = ` the aligned (unsigned) APK path. -/
theorem build_failure_reports_prior_artifact
    (apk_path new_pfx : String) (custom_suffix device_id : Option String)
    (install_after : Bool) (temp_dir : String) (env : PipelineEnv)
    (dec rb : ToolOutput) (mc suffix : String)
    (h1 : env.decompile = Except.ok dec) (h2 : dec.statusSuccess = true)
    (h3 : env.readManifest = Except.ok mc)
    (h4 : chooseSuffix custom_suffix (fileStem apk_path) = some suffix)
    (h5 : env.writeManifest = Except.ok ())
    (h6 : env.rebuild = Except.ok rb) (h7 : rb.statusSuccess = true) :
    (∀ al, env.align = Except.ok al → al.statusSuccess = false →
      process_apk_full apk_path new_pfx custom_suffix device_id
          install_after temp_dir env =
        (RunOutcome.ok ⟨false, "对齐失败: " ++ al.stderr,
          some (rebuiltApk apk_path), some "zipalign"⟩,
         [FsOp.removeDirAll (workDir temp_dir apk_path)])) ∧
    (∀ al sg, env.align = Except.ok al → al.statusSuccess = true →
      env.sign = Except.ok sg → sg.statusSuccess = false →
      process_apk_full apk_path new_pfx custom_suffix device_id
          install_after temp_dir env =
        (RunOutcome.ok ⟨false, "签名失败: " ++ sg.stderr,
          some (alignedApk apk_path), some "sign"⟩,
         [FsOp.removeDirAll (workDir temp_dir apk_path)])) := by
  constructor
  · intro al ha hf
    simp [process_apk_full, h1, h2, h3, h4, h5, h6, h7, ha, hf]
  · intro al sg ha hs hg hf
    simp [process_apk_full, h1, h2, h3, h4, h5, h6, h7, ha, hs, hg, hf]

/-- C2 witness: a concrete run whose zipalign tool fails with stderr
`ALIGNERR`; the result reports the rebuilt APK path. -/
theorem build_failure_reports_prior_artifact_witness :
    process_apk_full "/tmp/game.apk" "cn.chinapost" none none false "/t"
        ⟨Except.ok ⟨true, "", ""⟩, Except.ok "", Except.ok (),
         Except.ok ⟨true, "", ""⟩, Except.ok ⟨false, "", "ALIGNERR"⟩,
         Except.ok ⟨true, "", ""⟩, Except.ok ⟨true, "", ""⟩, fun _ => true⟩ =
      (RunOutcome.ok ⟨false, "对齐失败: " ++ "ALIGNERR",
        some (rebuiltApk "/tmp/game.apk"), some "zipalign"⟩,
       [FsOp.removeDirAll (workDir "/t" "/tmp/game.apk")]) :=
  (build_failure_reports_prior_artifact "/tmp/game.apk" "cn.chinapost" none
      none false "/t" _ ⟨true, "", ""⟩ ⟨true, "", ""⟩ "" "game"
      rfl rfl rfl (by decide) rfl rfl rfl).1
    ⟨false, "", "ALIGNERR"⟩ rfl rfl

/-- C3: when every build stage succeeds and `install_after = false`, the
run returns `success = true`, `step = "complete"`, `output_path = ` the
final signed APK, and its trace attempts removal of the working directory,
the rebuilt APK and the aligned APK; the whole run value is independent of
the `fsRemove` outcomes (removal failures are discarded by the source's
`let _ = ...`), so cleanup can never fail the run. -/
theorem full_success_complete_and_cleanup
    (apk_path new_pfx : String) (custom_suffix device_id : Option String)
    (temp_dir : String) (env : PipelineEnv)
    (dec rb al sg : ToolOutput) (mc suffix : String)
    (h1 : env.decompile = Except.ok dec) (h2 : dec.statusSuccess = true)
    (h3 : env.readManifest = Except.ok mc)
    (h4 : chooseSuffix custom_suffix (fileStem apk_path) = some suffix)
    (h5 : env.writeManifest = Except.ok ())
    (h6 : env.rebuild = Except.ok rb) (h7 : rb.statusSuccess = true)
    (h8 : env.align = Except.ok al) (h9 : al.statusSuccess = true)
    (h10 : env.sign = Except.ok sg) (h11 : sg.statusSuccess = true) :
    process_apk_full apk_path new_pfx custom_suffix device_id false
        temp_dir env =
      (RunOutcome.ok ⟨true, "✅ 处理完成! 新包名: " ++ (new_pfx ++ "." ++ suffix),
        some (finalApk apk_path), some "complete"⟩,
       [FsOp.removeDirAll (workDir temp_dir apk_path),
        FsOp.removeFile (rebuiltApk apk_path),
        FsOp.removeFile (alignedApk apk_path),
        FsOp.removeDirAll (workDir temp_dir apk_path)]) ∧
    FsOp.removeDirAll (workDir temp_dir apk_path) ∈
      (process_apk_full apk_path new_pfx custom_suffix device_id false
        temp_dir env).2 ∧
    FsOp.removeFile (rebuiltApk apk_path) ∈
      (process_apk_full apk_path new_pfx custom_suffix device_id false
        temp_dir env).2 ∧
    FsOp.removeFile (alignedApk apk_path) ∈
      (process_apk_full apk_path new_pfx custom_suffix device_id false
        temp_dir env).2 ∧
    (∀ (d : Except String ToolOutput) (r : Except String String)
      (w : Except String Unit) (rb' al' sg' i : Except String ToolOutput)
      (f g : FsOp → Bool) (ia : Bool),
      process_apk_full apk_path new_pfx custom_suffix device_id ia temp_dir
        ⟨d, r, w, rb', al', sg', i, f⟩ =
      process_apk_full apk_path new_pfx custom_suffix device_id ia temp_dir
        ⟨d, r, w, rb', al', sg', i, g⟩) := by
  have hmain : process_apk_full apk_path new_pfx custom_suffix device_id
      false temp_dir env =
      (RunOutcome.ok ⟨true, "✅ 处理完成! 新包名: " ++ (new_pfx ++ "." ++ suffix),
        some (finalApk apk_path), some "complete"⟩,
       [FsOp.removeDirAll (workDir temp_dir apk_path),
        FsOp.removeFile (rebuiltApk apk_path),
        FsOp.removeFile (alignedApk apk_path),
        FsOp.removeDirAll (workDir temp_dir apk_path)]) := by
    simp [process_apk_full, h1, h2, h3, h4, h5, h6, h7, h8, h9, h10, h11]
  refine ⟨hmain, ?_, ?_, ?_, ?_⟩
  · rw [hmain]; simp
  · rw [hmain]; simp
  · rw [hmain]; simp
  · intro d r w rb' al' sg' i f g ia
    rfl

/-- C3 witness: a concrete all-success run without install; the result is
`complete` with the final APK path and the three cleanup attempts. -/
theorem full_success_complete_and_cleanup_witness :
    process_apk_full "/tmp/game.apk" "cn.chinapost" none none false "/t"
        ⟨Except.ok ⟨true, "", ""⟩, Except.ok "", Except.ok (),
         Except.ok ⟨true, "", ""⟩, Except.ok ⟨true, "", ""⟩,
         Except.ok ⟨true, "", ""⟩, Except.ok ⟨true, "", ""⟩, fun _ => true⟩ =
      (RunOutcome.ok ⟨true, "✅ 处理完成! 新包名: " ++ ("cn.chinapost" ++ "." ++ "game"),
        some (finalApk "/tmp/game.apk"), some "complete"⟩,
       [FsOp.removeDirAll (workDir "/t" "/tmp/game.apk"),
        FsOp.removeFile (rebuiltApk "/tmp/game.apk"),
        FsOp.removeFile (alignedApk "/tmp/game.apk"),
        FsOp.removeDirAll (workDir "/t" "/tmp/game.apk")]) ∧
    FsOp.removeDirAll (workDir "/t" "/tmp/game.apk") ∈
      (process_apk_full "/tmp/game.apk" "cn.chinapost" none none false "/t"
        ⟨Except.ok ⟨true, "", ""⟩, Except.ok "", Except.ok (),
         Except.ok ⟨true, "", ""⟩, Except.ok ⟨true, "", ""⟩,
         Except.ok ⟨true, "", ""⟩, Except.ok ⟨true, "", ""⟩, fun _ => true⟩).2 ∧
    FsOp.removeFile (rebuiltApk "/tmp/game.apk") ∈
      (process_apk_full "/tmp/game.apk" "cn.chinapost" none none false "/t"
        ⟨Except.ok ⟨true, "", ""⟩, Except.ok "", Except.ok (),
         Except.ok ⟨true, "", ""⟩, Except.ok ⟨true, "", ""⟩,
         Except.ok ⟨true, "", ""⟩, Except.ok ⟨true, "", ""⟩, fun _ => true⟩).2 ∧
    FsOp.removeFile (alignedApk "/tmp/game.apk") ∈
      (process_apk_full "/tmp/game.apk" "cn.chinapost" none none false "/t"
        ⟨Except.ok ⟨true, "", ""⟩, Except.ok "", Except.ok (),
         Except.ok ⟨true, "", ""⟩, Except.ok ⟨true, "", ""⟩,
         Except.ok ⟨true, "", ""⟩, Except.ok ⟨true, "", ""⟩, fun _ => true⟩).2 ∧
    (∀ (d : Except String ToolOutput) (r : Except String String)
      (w : Except String Unit) (rb' al' sg' i : Except String ToolOutput)
      (f g : FsOp → Bool) (ia : Bool),
      process_apk_full "/tmp/game.apk" "cn.chinapost" none none ia "/t"
        ⟨d, r, w, rb', al', sg', i, f⟩ =
      process_apk_full "/tmp/game.apk" "cn.chinapost" none none ia "/t"
        ⟨d, r, w, rb', al', sg', i, g⟩) :=
  full_success_complete_and_cleanup "/tmp/game.apk" "cn.chinapost" none none
    "/t" _ ⟨true, "", ""⟩ ⟨true, "", ""⟩ ⟨true, "", ""⟩ ⟨true, "", ""⟩ "" "game"
    rfl rfl rfl (by decide) rfl rfl rfl rfl rfl rfl rfl

/-- C4: when every build stage succeeds, `install_after = true` and a
device id is supplied, an install invocation that exits non-success or
whose stdout lacks the literal `Success` marker — or that fails to launch
— yields `success = false`, `step = "install"`, `output_path = ` the final
signed APK path, and the final APK is never among the attempted
removals. -/
theorem install_failure_keeps_final_apk
    (apk_path new_pfx : String) (custom_suffix : Option String)
    (dev temp_dir : String) (env : PipelineEnv)
    (dec rb al sg : ToolOutput) (mc suffix : String)
    (h1 : env.decompile = Except.ok dec) (h2 : dec.statusSuccess = true)
    (h3 : env.readManifest = Except.ok mc)
    (h4 : chooseSuffix custom_suffix (fileStem apk_path) = some suffix)
    (h5 : env.writeManifest = Except.ok ())
    (h6 : env.rebuild = Except.ok rb) (h7 : rb.statusSuccess = true)
    (h8 : env.align = Except.ok al) (h9 : al.statusSuccess = true)
    (h10 : env.sign = Except.ok sg) (h11 : sg.statusSuccess = true) :
    (∀ out, env.install = Except.ok out →
      (out.statusSuccess && hasInfix "Success".data out.stdout.data) = false →
      process_apk_full apk_path new_pfx custom_suffix (some dev) true
          temp_dir env =
        (RunOutcome.ok ⟨false, "安装失败: " ++ out.stdout,
          some (finalApk apk_path), some "install"⟩,
         [FsOp.removeDirAll (workDir temp_dir apk_path),
          FsOp.removeFile (rebuiltApk apk_path),
          FsOp.removeFile (alignedApk apk_path),
          FsOp.removeDirAll (workDir temp_dir apk_path)])) ∧
    (∀ e, env.install = Except.error e →
      process_apk_full apk_path new_pfx custom_suffix (some dev) true
          temp_dir env =
        (RunOutcome.ok ⟨false, "安装命令执行失败: " ++ e,
          some (finalApk apk_path), some "install"⟩,
         [FsOp.removeDirAll (workDir temp_dir apk_path),
          FsOp.removeFile (rebuiltApk apk_path),
          FsOp.removeFile (alignedApk apk_path),
          FsOp.removeDirAll (workDir temp_dir apk_path)])) ∧
    FsOp.removeFile (finalApk apk_path) ∉
      (process_apk_full apk_path new_pfx custom_suffix (some dev) true
        temp_dir env).2 := by
  refine ⟨?_, ?_, ?_⟩
  · intro out hi hf
    simp [process_apk_full, h1, h2, h3, h4, h5, h6, h7, h8, h9, h10, h11, hi, hf]
  · intro e hi
    simp [process_apk_full, h1, h2, h3, h4, h5, h6, h7, h8, h9, h10, h11, hi]
  · have htrace : (process_apk_full apk_path new_pfx custom_suffix
        (some dev) true temp_dir env).2 =
      [FsOp.removeDirAll (workDir temp_dir apk_path),
       FsOp.removeFile (rebuiltApk apk_path),
       FsOp.removeFile (alignedApk apk_path),
       FsOp.removeDirAll (workDir temp_dir apk_path)] := by
      simp only [process_apk_full, h1, h2, h3, h4, h5, h6, h7, h8, h9, h10, h11]
      cases henv : env.install with
      | ok out =>
        by_cases hmark :
            (out.statusSuccess && hasInfix "Success".data out.stdout.data) = true
        · simp [hmark]
        · simp [hmark]
      | error e => simp
    rw [htrace]
    intro hmem
    rcases List.mem_cons.mp hmem with h' | hmem
    · cases h'
    rcases List.mem_cons.mp hmem with h' | hmem
    · exact finalApk_ne_rebuiltApk apk_path (by injection h')
    rcases List.mem_cons.mp hmem with h' | hmem
    · exact finalApk_ne_alignedApk apk_path (by injection h')
    rcases List.mem_cons.mp hmem with h' | hmem
    · cases h'
    · cases hmem

/-- C4 witness: a concrete all-build-success run whose install command
exits successfully but prints `Failure [INSTALL_FAILED]` (no `Success`
marker); the result is an install-tagged failure keeping the final APK. -/
theorem install_failure_keeps_final_apk_witness :
    process_apk_full "/tmp/game.apk" "cn.chinapost" none (some "dev1") true "/t"
        ⟨Except.ok ⟨true, "", ""⟩, Except.ok "", Except.ok (),
         Except.ok ⟨true, "", ""⟩, Except.ok ⟨true, "", ""⟩,
         Except.ok ⟨true, "", ""⟩, Except.ok ⟨true, "Failure [INSTALL_FAILED]", ""⟩,
         fun _ => true⟩ =
      (RunOutcome.ok ⟨false, "安装失败: " ++ "Failure [INSTALL_FAILED]",
        some (finalApk "/tmp/game.apk"), some "install"⟩,
       [FsOp.removeDirAll (workDir "/t" "/tmp/game.apk"),
        FsOp.removeFile (rebuiltApk "/tmp/game.apk"),
        FsOp.removeFile (alignedApk "/tmp/game.apk"),
        FsOp.removeDirAll (workDir "/t" "/tmp/game.apk")]) :=
  (install_failure_keeps_final_apk "/tmp/game.apk" "cn.chinapost" none "dev1"
      "/t" _ ⟨true, "", ""⟩ ⟨true, "", ""⟩ ⟨true, "", ""⟩ ⟨true, "", ""⟩ ""
      "game" rfl rfl rfl (by decide) rfl rfl rfl rfl rfl rfl rfl).1
    ⟨true, "Failure [INSTALL_FAILED]", ""⟩ rfl (by decide)

/-- C9: when every build stage succeeds, `install_after = true` but no
device id is supplied, the install stage is skipped silently: the result is
`success = true`, `step = "complete"` with the final signed APK path —
identical to the no-install run, whatever the install field of the
environment holds. -/
theorem install_skipped_without_device
    (apk_path new_pfx : String) (custom_suffix : Option String)
    (temp_dir : String) (env : PipelineEnv)
    (dec rb al sg : ToolOutput) (mc suffix : String)
    (h1 : env.decompile = Except.ok dec) (h2 : dec.statusSuccess = true)
    (h3 : env.readManifest = Except.ok mc)
    (h4 : chooseSuffix custom_suffix (fileStem apk_path) = some suffix)
    (h5 : env.writeManifest = Except.ok ())
    (h6 : env.rebuild = Except.ok rb) (h7 : rb.statusSuccess = true)
    (h8 : env.align = Except.ok al) (h9 : al.statusSuccess = true)
    (h10 : env.sign = Except.ok sg) (h11 : sg.statusSuccess = true) :
    process_apk_full apk_path new_pfx custom_suffix none true temp_dir env =
      (RunOutcome.ok ⟨true, "✅ 处理完成! 新包名: " ++ (new_pfx ++ "." ++ suffix),
        some (finalApk apk_path), some "complete"⟩,
       [FsOp.removeDirAll (workDir temp_dir apk_path),
        FsOp.removeFile (rebuiltApk apk_path),
        FsOp.removeFile (alignedApk apk_path),
        FsOp.removeDirAll (workDir temp_dir apk_path)]) := by
  simp [process_apk_full, h1, h2, h3, h4, h5, h6, h7, h8, h9, h10, h11]

/-- C9 witness: a concrete all-build-success run with `install_after = true`
but no device id, whose install field holds a failing outcome that is never
consulted — the run still completes. -/
theorem install_skipped_without_device_witness :
    process_apk_full "/tmp/game.apk" "cn.chinapost" none none true "/t"
        ⟨Except.ok ⟨true, "", ""⟩, Except.ok "", Except.ok (),
         Except.ok ⟨true, "", ""⟩, Except.ok ⟨true, "", ""⟩,
         Except.ok ⟨true, "", ""⟩, Except.error "adb missing", fun _ => true⟩ =
      (RunOutcome.ok ⟨true, "✅ 处理完成! 新包名: " ++ ("cn.chinapost" ++ "." ++ "game"),
        some (finalApk "/tmp/game.apk"), some "complete"⟩,
       [FsOp.removeDirAll (workDir "/t" "/tmp/game.apk"),
        FsOp.removeFile (rebuiltApk "/tmp/game.apk"),
        FsOp.removeFile (alignedApk "/tmp/game.apk"),
        FsOp.removeDirAll (workDir "/t" "/tmp/game.apk")]) :=
  install_skipped_without_device "/tmp/game.apk" "cn.chinapost" none "/t" _
    ⟨true, "", ""⟩ ⟨true, "", ""⟩ ⟨true, "", ""⟩ ⟨true, "", ""⟩ "" "game"
    rfl rfl rfl (by decide) rfl rfl rfl rfl rfl rfl rfl

/-- C5 counterexample: for the stem `ééééééé` (7 characters, 14 UTF-8
bytes) the code truncates the byte slice `[..12]` and produces the
6-character suffix `éééééé`, while "truncated to at most 12 characters"
leaves all 7 characters: the derived suffix differs from the
spec-modelled one, so the package identity differs too. -/
theorem suffix_char_truncation_counterexample :
    deriveSuffix "ééééééé" = some "éééééé" ∧
    specDeriveSuffix "ééééééé" = "ééééééé" ∧
    deriveSuffix "ééééééé" ≠ some (specDeriveSuffix "ééééééé") ∧
    (deriveSuffix "ééééééé").map (fun suf => "cn.chinapost" ++ "." ++ suf) =
      some "cn.chinapost.éééééé" := by
  refine ⟨by decide, by decide, by decide, by decide⟩

/-- C5 (amended): the package identity is `new_pfx ++ "." ++ suffix`
where the suffix is the supplied non-empty custom suffix, and otherwise the
lowercased, alphanumeric-filtered stem truncated to its first 12 UTF-8
**bytes** when its byte length exceeds 12 (a panic when byte 12 is not a
character boundary); when every remaining character is a single UTF-8 byte
this coincides with truncation to at most 12 characters, and scenario A
holds: source `game.apk`, prefix `cn.chinapost`, no custom suffix gives
identity `cn.chinapost.game`. -/
theorem suffix_selection_byte_truncation (stem s : String) :
    chooseSuffix (some s) stem =
      (if s.data.isEmpty then deriveSuffix stem else some s) ∧
    chooseSuffix none stem = deriveSuffix stem ∧
    ((∀ c ∈ cleanStem stem, c.utf8Size = 1) →
      deriveSuffix stem = some (String.mk ((cleanStem stem).take 12))) ∧
    (chooseSuffix none (fileStem "game.apk")).map
        (fun suf => "cn.chinapost" ++ "." ++ suf) = some "cn.chinapost.game" := by
  refine ⟨?_, rfl, ?_, by decide⟩
  · rw [chooseSuffix]
    cases he : s.data.isEmpty <;> simp
  · intro h
    rw [deriveSuffix]
    by_cases h12 : 12 < utf8Len (cleanStem stem)
    · rw [if_pos h12, byteTake_of_all_one h 12 (by rw [← utf8Len_of_all_one h]; omega)]
      rfl
    · rw [if_neg h12]
      have h2 : (cleanStem stem).take 12 = cleanStem stem := by
        apply List.take_of_length_le
        rw [← utf8Len_of_all_one h]
        omega
      rw [h2]

/-- C6: for every scanned listing output, the two curated entries occupy
positions 0 and 1 of the returned sequence, both tagged `recommended`;
every following entry is scan-derived (`device_scan`) and those entries are
sorted by descending occurrence count. -/
theorem scan_curated_entries_first (stdout : String) :
    (scan_trusted_prefixes stdout).take 2 = [recommended1, recommended2] ∧
    recommended1.source = "recommended" ∧ recommended2.source = "recommended" ∧
    (∀ t ∈ (scan_trusted_prefixes stdout).drop 2, t.source = "device_scan") ∧
    ((scan_trusted_prefixes stdout).drop 2).Pairwise
      (fun a b => b.count ≤ a.count) := by
  refine ⟨rfl, rfl, rfl, ?_, ?_⟩
  · intro t ht
    simp only [scan_trusted_prefixes, List.drop_succ_cons, List.drop_zero] at ht
    have h1 := mem_sortDesc.mp ht
    simp only [scanDerivedEntries, List.mem_map] at h1
    obtain ⟨pc, _, rfl⟩ := h1
    rfl
  · simp only [scan_trusted_prefixes, List.drop_succ_cons, List.drop_zero]
    exact pairwise_sortDesc _

/-- C7: a two-segment prefix occurring exactly once in the scanned listing
never appears among the scan-derived (`device_scan`) entries, and every
prefix occurring at least twice that no denylist entry is a prefix of
appears among them with its exact occurrence count. -/
theorem scan_count_threshold_membership (stdout p : String) :
    (countK p (scannedPrefixes stdout) = 1 →
      ∀ t ∈ scan_trusted_prefixes stdout, t.source = "device_scan" →
        t.pfx ≠ p) ∧
    (2 ≤ countK p (scannedPrefixes stdout) →
      system_prefixes.any (fun sys => strStartsWith p sys) = false →
      (⟨p, countK p (scannedPrefixes stdout), "device_scan"⟩ : TrustedPrefix) ∈
        scan_trusted_prefixes stdout) := by
  constructor
  · intro hcount t ht hsrc hpfx
    rcases List.mem_cons.mp ht with h1 | ht
    · rw [h1] at hsrc
      exact absurd hsrc (by decide)
    rcases List.mem_cons.mp ht with h1 | ht
    · rw [h1] at hsrc
      exact absurd hsrc (by decide)
    have h1 := mem_sortDesc.mp ht
    simp only [scanDerivedEntries, List.mem_map] at h1
    obtain ⟨pc, hmem, rfl⟩ := h1
    rw [List.mem_filter] at hmem
    obtain ⟨hmm, hkeep⟩ := hmem
    have hp1 : pc.1 = p := hpfx
    have hmm2 : (p, pc.2) ∈ prefixMap stdout := by
      rw [← hp1]
      simpa using hmm
    have hl := lookupK_eq_some_of_mem (nodup_keys_prefixMap stdout) hmm2
    rw [lookupK_prefixMap, hcount] at hl
    simp at hl
    rw [keepEntry, ← hl] at hkeep
    simp at hkeep
  · intro hge hdeny
    have hne : ¬ (countK p (scannedPrefixes stdout) = 0) := by omega
    have hl : lookupK p (prefixMap stdout) =
        some (countK p (scannedPrefixes stdout)) := by
      rw [lookupK_prefixMap, if_neg hne]
    have hmem := mem_of_lookupK_eq_some hl
    have hkeep : keepEntry (p, countK p (scannedPrefixes stdout)) = true := by
      simp [keepEntry, hdeny]
      omega
    apply List.mem_cons_of_mem
    apply List.mem_cons_of_mem
    rw [mem_sortDesc]
    simp only [scanDerivedEntries, List.mem_map]
    refine ⟨(p, countK p (scannedPrefixes stdout)), ?_, rfl⟩
    rw [List.mem_filter]
    exact ⟨hmem, hkeep⟩

/-- C8 counterexample: on the listing output whose single data line is
`mydevice offline`, the line's whitespace tokens are `mydevice` and
`offline` — no token is `device` and the status token is `offline` — yet
`get_devices` keeps the line (the serial contains the substring `device`)
and returns `mydevice`, so the claimed status-token exclusion does not
hold. -/
theorem devices_status_token_counterexample :
    get_devices "List of devices attached\nmydevice offline" = ["mydevice"] ∧
    (splitWs ("mydevice offline").data).map String.mk = ["mydevice", "offline"] ∧
    "device" ∉ (splitWs ("mydevice offline").data).map String.mk ∧
    get_devices "List of devices attached\nmydevice offline" ≠ [] := by
  refine ⟨by decide, by decide, by decide, by decide⟩

/-- C8 (amended): `get_devices` drops the first (header) line and keeps, in
input order, exactly the lines that are non-blank after trimming and
contain the **substring** `device` anywhere (not a status-token check:
`offline`/`unauthorized` lines are only excluded when no part of the line
contains that substring), returning each kept line's first
whitespace-delimited token; every kept line has such a token, and an empty
result is just the empty list, not an error. -/
theorem devices_substring_filter (stdout : String) :
    get_devices stdout =
      (((rustLines stdout).drop 1).filter keepLine).map firstWord ∧
    (∀ l, keepLine l = true →
      ∃ w ws, splitWs l.data = w :: ws ∧ firstWord l = String.mk w ∧ w ≠ []) := by
  refine ⟨rfl, ?_⟩
  intro l hk
  have h1 := splitWs_ne_nil (exists_nonws_of_keepLine hk)
  cases hs : splitWs l.data with
  | nil => exact absurd hs h1
  | cons w ws =>
    refine ⟨w, ws, rfl, ?_, ?_⟩
    · rw [firstWord, hs]
    · have hw : w ∈ splitWs l.data := by
        rw [hs]
        exact List.mem_cons_self _ _
      rw [splitWs] at hw
      have h2 := List.of_mem_filter hw
      simpa using h2

/-- C10: the automatic suffix derivation is not total — for the stem
`aééééééé` (15 UTF-8 bytes, byte 12 inside the seventh `é`) the byte slice
`clean[..12]` falls on a non-boundary and the code panics; the model
returns the panic marker, and a full pipeline run over an all-success
environment for the source `/tmp/aééééééé.apk` panics after decompile. -/
theorem suffix_truncation_panic_input :
    deriveSuffix "aééééééé" = none ∧
    chooseSuffix none "aééééééé" = none ∧
    chooseSuffix (some "") "aééééééé" = none ∧
    (process_apk_full "/tmp/aééééééé.apk" "cn.chinapost" none none false "/t"
      ⟨Except.ok ⟨true, "", ""⟩, Except.ok "", Except.ok (),
       Except.ok ⟨true, "", ""⟩, Except.ok ⟨true, "", ""⟩,
       Except.ok ⟨true, "", ""⟩, Except.ok ⟨true, "", ""⟩,
       fun _ => true⟩).1 = RunOutcome.panicked := by
  refine ⟨by decide, by decide, by decide, by decide⟩
